import Mathlib

/-!
Verification of the figma-tex-to-svg plugin core: the sub-expression tree
matcher, the styling applier with its occurrence filter, the color
normalizer, the render dispatcher and the create/edit session state
machine.  Each definition is a shallow embedding of the corresponding
TypeScript function; SVG/DOM elements become an inductive tree of values,
machine integers become `Int`, fallible calls become `Option`/`Except`.
-/

set_option maxRecDepth 4000

namespace FigmaTex

/-- A DOM element as consumed by the tree matcher (src/ui/mathRenderer.ts):
its tag name, its `data-mml-node` attribute, its `data-c` (literal
character) attribute, and its ordered element children.  Missing
attributes are `none` (DOM `getAttribute` returns `null`). -/
inductive Elem where
  | node (tag : String) (mml : Option String) (dataC : Option String)
      (children : List Elem) : Elem

mutual

def elemDecEq : (a b : Elem) → Decidable (a = b)
  | .node t1 m1 c1 ch1, .node t2 m2 c2 ch2 =>
    if h1 : t1 = t2 then
      if h2 : m1 = m2 then
        if h3 : c1 = c2 then
          match elemListDecEq ch1 ch2 with
          | isTrue h4 => isTrue (by rw [h1, h2, h3, h4])
          | isFalse h4 => isFalse (by intro h; injection h; contradiction)
        else isFalse (by intro h; injection h; contradiction)
      else isFalse (by intro h; injection h; contradiction)
    else isFalse (by intro h; injection h; contradiction)

def elemListDecEq : (a b : List Elem) → Decidable (a = b)
  | [], [] => isTrue rfl
  | [], _ :: _ => isFalse (by intro h; exact List.noConfusion h)
  | _ :: _, [] => isFalse (by intro h; exact List.noConfusion h)
  | x :: xs, y :: ys =>
    match elemDecEq x y, elemListDecEq xs ys with
    | isTrue h1, isTrue h2 => isTrue (by rw [h1, h2])
    | isFalse h1, _ => isFalse (by intro h; injection h; contradiction)
    | _, isFalse h2 => isFalse (by intro h; injection h; contradiction)

end

instance : DecidableEq Elem := elemDecEq

def Elem.tag : Elem → String
  | .node t _ _ _ => t

def Elem.mml : Elem → Option String
  | .node _ m _ _ => m

def Elem.dataC : Elem → Option String
  | .node _ _ c _ => c

def Elem.children : Elem → List Elem
  | .node _ _ _ ch => ch

mutual

/-- `nodeMatches` from `findSubtreeMatches` (mathRenderer.ts lines
100-125): tags equal, `data-mml-node` attributes equal, and — only when
the first node carries `data-c` — the `data-c` attributes equal; then
the children lists must match pairwise with equal length. -/
def nodeMatches : Elem → Elem → Bool
  | .node t1 m1 c1 ch1, .node t2 m2 c2 ch2 =>
    t1 == t2 && m1 == m2 && (!c1.isSome || c1 == c2) && listMatches ch1 ch2

/-- Children comparison inside `nodeMatches`: equal length and each
pair recursively matching, in order. -/
def listMatches : List Elem → List Elem → Bool
  | [], [] => true
  | x :: xs, y :: ys => nodeMatches x y && listMatches xs ys
  | _, _ => false

end

/-- The sequential-run walk of `findSubtreeMatches` (lines 135-144): walk
the sibling chain and the reference's top-level children in lock-step
while each pair satisfies `nodeMatches`; return the consumed siblings
and how many reference children were consumed.  The source's
`lastMatch === subtree.lastChild` test is equivalent to having consumed
every reference child, i.e. count = number of reference children. -/
def seqWalk : List Elem → List Elem → List Elem × Nat
  | s :: ss, r :: rs =>
    if nodeMatches s r then
      let m := seqWalk ss rs
      (s :: m.1, m.2 + 1)
    else ([], 0)
  | _, _ => ([], 0)

/-- Matches whose starting sibling lies in the given sibling list: for
each start child, first the deep-match test of the whole child against
the reference root, then the sequential-run test against the
reference's top-level children (lines 128-150). -/
def startsAt : List Elem → Elem → List (List Elem)
  | [], _ => []
  | c :: rest, ref =>
    let deep := if nodeMatches c ref then [[c]] else []
    let w := seqWalk (c :: rest) ref.children
    let seq := if w.2 = ref.children.length then [w.1] else []
    deep ++ seq ++ startsAt rest ref

mutual

/-- `traverse` from `findSubtreeMatches` (lines 127-155): collect the
matches starting among this node's children, then recurse into each
child. -/
def traverse (e : Elem) (ref : Elem) : List (List Elem) :=
  match e with
  | .node _ _ _ ch => startsAt ch ref ++ traverseList ch ref

def traverseList : List Elem → Elem → List (List Elem)
  | [], _ => []
  | c :: cs, ref => traverse c ref ++ traverseList cs ref

end

/-- `findSubtreeMatches(root, subtree)` (mathRenderer.ts lines 97-159). -/
def findSubtreeMatches (root : Elem) (subtree : Elem) : List (List Elem) :=
  traverse root subtree

mutual

/-- All nodes of a tree (the root and every descendant), in preorder. -/
def allNodes (e : Elem) : List Elem :=
  match e with
  | .node _ _ _ ch => e :: allNodesList ch

def allNodesList : List Elem → List Elem
  | [] => []
  | c :: cs => allNodes c ++ allNodesList cs

end

/-! ## Color normalizer (`expandColor`, src/ui/color.ts and src/ui/index.ts) -/

/-- The `hex.replace(/^#/, '')` step: JS `replace` with the anchored
pattern removes at most one leading `'#'`. -/
def jsStripHashL : List Char → List Char
  | '#' :: rest => rest
  | l => l

/-- `expandColor` (src/ui/color.ts lines 22-38): empty input → empty
output; otherwise strip one leading `'#'` and uppercase, then expand by
payload length (1 → repeat 6×, 2 → repeat 3×, 3 → duplicate each
character pairwise, otherwise pass through). -/
def expandColor (hex : String) : String :=
  if hex = "" then "" else
  let cleaned := (jsStripHashL hex.data).map Char.toUpper
  if cleaned.length = 1 then ⟨(List.replicate 6 cleaned).flatten⟩
  else if cleaned.length = 2 then ⟨(List.replicate 3 cleaned).flatten⟩
  else if cleaned.length = 3 then ⟨cleaned.flatMap (fun c => [c, c])⟩
  else ⟨cleaned⟩

/-! ## Occurrence filter (`applySubExpressionColors`, mathRenderer.ts
lines 309-365) -/

/-- Whitespace as recognized by JS `String.prototype.trim` (the common
ASCII whitespace characters suffice for this embedding). -/
def isJsWhitespace (c : Char) : Bool :=
  c = ' ' || c = '\t' || c = '\n' || c = '\r'

/-- JS `s.trim()`. -/
def jsTrim (l : List Char) : List Char :=
  ((l.dropWhile isJsWhitespace).reverse.dropWhile isJsWhitespace).reverse

/-- JS `s.split(',')`: `""` gives `[""]`, `","` gives `["", ""]`. -/
def splitComma : List Char → List (List Char)
  | [] => [[]]
  | c :: rest =>
    let r := splitComma rest
    if c = ',' then [] :: r
    else
      match r with
      | h :: t => (c :: h) :: t
      | [] => [[c]]

/-- Digit run value, for `parseIntJS`. -/
def natOfDigits (l : List Char) : Nat :=
  l.foldl (fun acc c => acc * 10 + (c.toNat - 48)) 0

/-- JS `parseInt(s, 10)` on an already-trimmed token: an optional sign
followed by a longest decimal-digit prefix; `NaN` (here `none`) exactly
when no digit follows.  Trailing non-digit characters are ignored, so
`parseInt('1.5') = 1` and `parseInt('3abc') = 3`. -/
def parseIntJS (l : List Char) : Option Int :=
  match l with
  | '+' :: rest =>
    let d := rest.takeWhile Char.isDigit
    if d = [] then none else some (natOfDigits d : Int)
  | '-' :: rest =>
    let d := rest.takeWhile Char.isDigit
    if d = [] then none else some (-(natOfDigits d : Int))
  | _ =>
    let d := l.takeWhile Char.isDigit
    if d = [] then none else some (natOfDigits d : Int)

/-- The valid-range text embedded in the out-of-range error message
(mathRenderer.ts line 341): `matches.length > 0 ? '1-len' : 'none'`. -/
def rangeMsg (n : Nat) : String :=
  if n > 0 then "1-" ++ toString n else "none"

/-- Outcome of the occurrence handling for one style entry whose
expression produced `n ≥ 1` matches. -/
inductive OccOutcome where
  | paintAll : OccOutcome
  | paintSome (idxs : List Nat) : OccOutcome
  | invalidToken (tok : String) : OccOutcome
  | outOfRange (idx : Int) (range : String) : OccOutcome
deriving DecidableEq, Repr

/-- The `for (const idxStr of occurrenceIndices)` loop with its
`break`-on-first-error semantics (lines 329-349): `acc` is the
`parsedIndices` array accumulated so far (0-based). -/
def occLoop : List (List Char) → Nat → List Nat → OccOutcome
  | [], _, acc => .paintSome acc
  | t :: ts, n, acc =>
    match parseIntJS t with
    | none => .invalidToken ⟨t⟩
    | some idx =>
      if idx < 1 ∨ (n : Int) ≤ idx - 1 then .outOfRange idx (rangeMsg n)
      else occLoop ts n (acc ++ [(idx - 1).toNat])

/-- Occurrence handling of `applySubExpressionColors` (lines 309-365)
for an entry with `n` matches: trim `occurrences || ''`; blank selects
every match; otherwise split on commas, trim each token, drop empty
tokens, and run the validation loop. -/
def processOccurrences (occurrences : Option String) (n : Nat) : OccOutcome :=
  let occStr := jsTrim (occurrences.getD "").data
  if occStr = [] then .paintAll
  else occLoop (((splitComma occStr).map jsTrim).filter (fun t => t ≠ [])) n []

/-- Result of one style entry of `applySubExpressionColors`: either the
expression-not-found error (zero matches or `getMatchesByTex` returned
`null`), or the occurrence outcome. -/
inductive EntryResult where
  | notFound : EntryResult
  | styled (o : OccOutcome) : EntryResult
deriving DecidableEq, Repr

/-- The per-entry control flow of `applySubExpressionColors` (lines
286-365) abstracted over the `getMatchesByTex` result: `null` or an
empty match list reports not-found and does nothing else; otherwise the
occurrence logic runs with `matchCount = matches.length`. -/
def processEntry (matchesOpt : Option (List (List Elem)))
    (occurrences : Option String) : EntryResult :=
  match matchesOpt with
  | none => .notFound
  | some ms => if ms.length = 0 then .notFound else .styled (processOccurrences occurrences ms.length)

/-- The set of (0-based) match positions an entry outcome paints, given
`n` matches: errors and not-found paint nothing, blank occurrences
paint every match, validated indices paint exactly those positions. -/
def EntryResult.painted (r : EntryResult) (n : Nat) : List Nat :=
  match r with
  | .notFound => []
  | .styled .paintAll => List.range n
  | .styled (.paintSome l) => l
  | .styled (.invalidToken _) => []
  | .styled (.outOfRange _ _) => []

/-! ## `getMatchesByTex` (mathRenderer.ts lines 205-230)

The matcher runs over DOM nodes, whose document order is their position
in the tree; here every node is annotated with its child-index path, so
`compareDocumentPosition` becomes lexicographic path order (an ancestor
precedes its descendants).  The geometric bounding-box fallback of
`compareNodePosition` only applies to nodes from different documents and
is unreachable here, as both compared nodes come from the same rendered
tree. -/

/-- First descendant with `data-mml-node="math"`, in preorder — the DOM
`querySelector('[data-mml-node="math"]')`, which searches descendants
only. -/
def firstMathNode : List Elem → Option Elem
  | [] => none
  | .node t m dc ch :: cs =>
    if m = some "math" then some (.node t m dc ch)
    else
      match firstMathNode ch with
      | some x => some x
      | none => firstMathNode cs

def querySelectorMath (e : Elem) : Option Elem :=
  firstMathNode e.children

/-- Annotate children of a node at path `p` with their paths. -/
def annotate (p : List Nat) (ch : List Elem) : List (List Nat × Elem) :=
  ch.enum.map (fun ic => (p ++ [ic.1], ic.2))

/-- `seqWalk` over path-annotated siblings. -/
def seqWalkPos : List (List Nat × Elem) → List Elem → List (List Nat × Elem) × Nat
  | s :: ss, r :: rs =>
    if nodeMatches s.2 r then
      let m := seqWalkPos ss rs
      (s :: m.1, m.2 + 1)
    else ([], 0)
  | _, _ => ([], 0)

/-- `startsAt` over path-annotated siblings. -/
def startsAtPos : List (List Nat × Elem) → Elem → List (List (List Nat × Elem))
  | [], _ => []
  | c :: rest, ref =>
    let deep := if nodeMatches c.2 ref then [[c]] else []
    let w := seqWalkPos (c :: rest) ref.children
    let seq := if w.2 = ref.children.length then [w.1] else []
    deep ++ seq ++ startsAtPos rest ref

mutual

/-- `traverse` with path annotations. -/
def traversePos (p : List Nat) (e : Elem) (ref : Elem) :
    List (List (List Nat × Elem)) :=
  match e with
  | .node _ _ _ ch => startsAtPos (annotate p ch) ref ++ traversePosList p 0 ch ref

def traversePosList (p : List Nat) (i : Nat) :
    List Elem → Elem → List (List (List Nat × Elem))
  | [], _ => []
  | c :: cs, ref => traversePos (p ++ [i]) c ref ++ traversePosList p (i + 1) cs ref

end

/-- `findSubtreeMatches` with every matched node carrying its path in
the main tree. -/
def findSubtreeMatchesPos (root ref : Elem) : List (List (List Nat × Elem)) :=
  traversePos [] root ref

/-- Document order on paths: lexicographic, with an ancestor before its
descendants. -/
def pathLe : List Nat → List Nat → Bool
  | [], _ => true
  | _ :: _, [] => false
  | a :: as, b :: bs =>
    if a < b then true else if b < a then false else pathLe as bs

/-- The comparator of `sortMatchesByPosition` (mathRenderer.ts lines
192-200): empty matches first, otherwise document order of the first
nodes of the two matches. -/
def matchLe (a b : List (List Nat × Elem)) : Bool :=
  match a, b with
  | [], _ => true
  | _ :: _, [] => false
  | x :: _, y :: _ => pathLe x.1 y.1

def insertMatch (x : List (List Nat × Elem)) :
    List (List (List Nat × Elem)) → List (List (List Nat × Elem))
  | [] => [x]
  | y :: ys => if matchLe x y then x :: y :: ys else y :: insertMatch x ys

/-- `sortMatchesByPosition` as a stable comparator sort. -/
def sortMatchesByPosition (l : List (List (List Nat × Elem))) :
    List (List (List Nat × Elem)) :=
  l.foldr insertMatch []

/-- `getMatchesByTex(tex, svgElement)` (mathRenderer.ts lines 205-230).
The engine argument is `window.MathJax?.tex2svg`: `none` when MathJax
or `tex2svg` is missing (line 206 returns `null`), and a throwing call
is an `.error`, turned into `null` by the surrounding `try`/`catch`
(lines 226-229).  On success the wrapper's first child is searched for
the math root on both sides; a missing root returns `null`; otherwise
the sorted matches are returned. -/
def getMatchesByTex (engine : Option (String → Except String Elem))
    (tex : String) (svgElement : Elem) : Option (List (List Elem)) :=
  match engine with
  | none => none
  | some tex2svg =>
    match tex2svg tex with
    | .error _ => none
    | .ok output =>
      match output.children.head? with
      | none => none
      | some matchRendered =>
        match querySelectorMath svgElement, querySelectorMath matchRendered with
        | some tree, some m =>
          some ((sortMatchesByPosition (findSubtreeMatchesPos tree m)).map
            (fun mt => mt.map Prod.snd))
        | _, _ => none

/-! ## Painting (`applyColorToNodeAndNestedGroups`, mathRenderer.ts
lines 238-255) -/

/-- An SVG element with a mutable `style.fill`, as touched by the
painting code: tag, `data-mml-node` attribute, current fill, children. -/
inductive PElem where
  | node (tag : String) (mml : Option String) (fill : Option String)
      (children : List PElem) : PElem

def PElem.tag : PElem → String
  | .node t _ _ _ => t

def PElem.mml : PElem → Option String
  | .node _ m _ _ => m

def PElem.fill : PElem → Option String
  | .node _ _ f _ => f

def PElem.children : PElem → List PElem
  | .node _ _ _ ch => ch

mutual

/-- Effect of the `node.querySelectorAll('g')` loop (lines 245-254) on a
descendant subtree: every descendant tagged `g` that is not a `merror`
node gets the requested fill; every other descendant keeps its fill. -/
def paintDescendants (color : String) : PElem → PElem
  | .node t m f ch =>
    let f2 := if t = "g" ∧ m ≠ some "merror" then some color else f
    .node t m f2 (paintDescendantsList color ch)

def paintDescendantsList (color : String) : List PElem → List PElem
  | [] => []
  | c :: cs => paintDescendants color c :: paintDescendantsList color cs

end

/-- `applyColorToNodeAndNestedGroups(node, color)` (lines 238-255): the
node itself gets `style.fill = color` unconditionally (lines 240-242
have no error-node check), then all nested `g` descendants except
`merror` nodes are painted. -/
def applyColorToNodeAndNestedGroups (node : PElem) (color : String) : PElem :=
  match node with
  | .node t m _ ch => .node t m (some color) (paintDescendantsList color ch)

/-- Subtree lookup by child-index path (`[]` is the node itself). -/
def nodeAt : PElem → List Nat → Option PElem
  | e, [] => some e
  | e, i :: p =>
    match (PElem.children e).get? i with
    | some c => nodeAt c p
    | none => none

/-! ## Session state, render dispatcher and mode transitions
(src/ui/PluginFrontend.ts, given as src/unnamed/part_001 and
src/unnamed/part_002) -/

/-- `SubExpressionStyle` (src/ui/types.ts). -/
structure SubExpressionStyle where
  expression : String
  color : String
  occurrences : Option String
deriving DecidableEq, Repr

/-- `RenderOptions` (src/ui/types.ts).  `fontSize` is a JS number used
only as an opaque payload by the claims considered here; it is embedded
as a rational. -/
structure RenderOptions where
  tex : String
  display : Bool
  fontSize : ℚ
  backgroundColor : String
  fontColor : String
  subExpressionStyles : List SubExpressionStyle
deriving DecidableEq

inductive Mode where
  | create : Mode
  | edit : Mode
deriving DecidableEq, Repr

/-- The slice of the frontend session state relevant to the render
dispatcher and the create/edit state machine (the StateStore fields
read and written by the cited code). -/
structure SessionState where
  renderOptions : RenderOptions
  mode : Mode
  currentNodeId : Option String
  lastRenderedTex : Option String
  lastRenderedDisplay : Option Bool
  currentSVGWrapper : Option PElem
  isLoadingNodeData : Bool
  draftState : Option RenderOptions

/-- Modelled from the spec: the `StateStore` class
(`src/ui/core/StateStore.ts`) is imported by the frontend but its
source file is not present under src/ — only its callers are.  Spec
§4.4: `needsFullRender` ⇐ (current text ≠ lastRenderedText) OR (current
display-mode ≠ lastRenderedDisplayMode) OR (no current visual tree
exists). -/
def needsFullRender (s : SessionState) : Bool :=
  s.lastRenderedTex != some s.renderOptions.tex
    || s.lastRenderedDisplay != some s.renderOptions.display
    || s.currentSVGWrapper.isNone

/-- What the dispatcher does with the current state: invoke the
external typeset engine with the current text and display flag, or
restyle the existing tree in place without typesetting. -/
inductive DispatchAction where
  | typeset (tex : String) (display : Bool) : DispatchAction
  | restyleOnly : DispatchAction
deriving DecidableEq, Repr

/-- `PluginFrontend.convert` (part_002 lines 524-532): full render via
`renderMath` — which calls `typesetMath(options.tex, ...)` — exactly
when `needsFullRender()`, otherwise `updateStyling`, whose body (lines
605-621) mutates background, font color, font size and sub-expression
styles in place and never calls the typeset engine. -/
def convert (s : SessionState) : DispatchAction :=
  if needsFullRender s then
    DispatchAction.typeset s.renderOptions.tex s.renderOptions.display
  else
    DispatchAction.restyleOnly

/-- Availability of the external engine as `typesetMath`
(mathRenderer.ts lines 382-436) distinguishes it: `window.MathJax`
missing, present but not ready, or ready with a rendering function. -/
inductive EngineAvail where
  | unavailable : EngineAvail
  | notReady : EngineAvail
  | ready (render : String → Bool → Except String PElem) : EngineAvail

/-- The settled result of the `typesetMath` promise: the two early
rejections of lines 384-391, or the engine's own resolve/reject. -/
def typesetMathResult (eng : EngineAvail) (tex : String) (display : Bool) :
    Except String PElem :=
  match eng with
  | .unavailable => .error "MathJax is not loaded. Please wait a moment and try again."
  | .notReady => .error "MathJax is not ready yet. Please wait a moment and try again."
  | .ready render => render tex display

/-- What ends up inside the `#output` element after `renderMath`. -/
inductive OutputContent where
  | svgNode (t : PElem) : OutputContent
  | errorText (msg : String) : OutputContent

/-- `PluginFrontend.renderMath` (part_002 lines 534-599), state and
output effect of the settled promise: on resolve, append the node and
record `currentSVGWrapper`/`lastRenderedTex`/`lastRenderedDisplay`; on
reject (lines 589-599), append the error message as text and reset all
three fields to null. -/
def renderMathStep (eng : EngineAvail) (s : SessionState) :
    SessionState × OutputContent :=
  match typesetMathResult eng s.renderOptions.tex s.renderOptions.display with
  | .ok node =>
    ({ s with currentSVGWrapper := some node,
              lastRenderedTex := some s.renderOptions.tex,
              lastRenderedDisplay := some s.renderOptions.display },
     .svgNode node)
  | .error msg =>
    ({ s with currentSVGWrapper := none,
              lastRenderedTex := none,
              lastRenderedDisplay := none },
     .errorText msg)

/-- The session transitions that touch `mode` / `currentNodeId`, plus
the other state mutations of the cited code (edits, render completion,
loading-flag reset), from part_001 lines 196-217 (place button) and
part_002 lines 409-431 (`switchToCreateMode` / `switchToEditMode`) and
763-795 (`loadNodeData`). -/
inductive Transition where
  | place : Transition
  | clearSelection : Transition
  | loadNode (id : String) (opts : RenderOptions) : Transition
  | editOptions (opts : RenderOptions) : Transition
  | renderSuccess (tree : PElem) : Transition
  | renderFailure : Transition
  | finishLoad : Transition

/-- One step of the session state machine. -/
def step (s : SessionState) : Transition → SessionState
  | .place =>
    -- part_001 lines 204-211: clear the draft, enter edit mode with the
    -- node id still null ("will be set when the node is created and
    -- selected").
    { s with draftState := none, mode := .edit, currentNodeId := none }
  | .clearSelection =>
    -- part_002 lines 409-417 (`switchToCreateMode`) followed by
    -- `restoreDraftState` (lines 444-453).
    let s1 := { s with mode := .create, currentNodeId := none }
    match s1.draftState with
    | some d => { s1 with renderOptions := d, draftState := none }
    | none => s1
  | .loadNode id opts =>
    -- part_002 lines 763-783 (`loadNodeData`): set the loading flag,
    -- install the loaded options, then `switchToEditMode(nodeId)`
    -- (lines 422-431), which snapshots the draft and enters edit mode.
    let s1 := { s with isLoadingNodeData := true, renderOptions := opts }
    let s2 := { s1 with draftState := some s1.renderOptions }
    { s2 with mode := .edit, currentNodeId := some id }
  | .editOptions opts =>
    -- the input handlers (part_002 lines 116-160): user edits replace
    -- `renderOptions` and leave mode and node id alone.
    { s with renderOptions := opts }
  | .renderSuccess tree =>
    { s with currentSVGWrapper := some tree,
             lastRenderedTex := some s.renderOptions.tex,
             lastRenderedDisplay := some s.renderOptions.display }
  | .renderFailure =>
    { s with currentSVGWrapper := none,
             lastRenderedTex := none,
             lastRenderedDisplay := none }
  | .finishLoad =>
    { s with isLoadingNodeData := false }

/-- The initial session state (part_001 lines 91-102 with
`DEFAULT_RENDER_OPTIONS` from src/ui/constants.ts). -/
def initState : SessionState :=
  { renderOptions :=
      { tex := ""
        display := true
        fontSize := 24
        backgroundColor := "#000000"
        fontColor := "#EEEEEE"
        subExpressionStyles := [] }
    mode := .create
    currentNodeId := none
    lastRenderedTex := none
    lastRenderedDisplay := none
    currentSVGWrapper := none
    isLoadingNodeData := false
    draftState := none }

/-- Session states reachable from the initial state by the modelled
transitions. -/
inductive Reachable : SessionState → Prop where
  | init : Reachable initState
  | next {s : SessionState} (h : Reachable s) (t : Transition) :
      Reachable (step s t)

/-! ## Theorems -/

/-- The claim's "payload": the input with a leading `'#'` removed and
letters uppercased.  JS `replace(/^#/, '')` removes at most one leading
marker, so a second `'#'` stays in the payload. -/
def payloadSpec (hex : String) : List Char :=
  (jsStripHashL hex.data).map Char.toUpper

theorem expandColor_eq_branches (hex : String) (h : hex ≠ "") :
    expandColor hex =
      if (payloadSpec hex).length = 1 then ⟨(List.replicate 6 (payloadSpec hex)).flatten⟩
      else if (payloadSpec hex).length = 2 then ⟨(List.replicate 3 (payloadSpec hex)).flatten⟩
      else if (payloadSpec hex).length = 3 then ⟨(payloadSpec hex).flatMap (fun c => [c, c])⟩
      else ⟨payloadSpec hex⟩ := by
  rw [expandColor, if_neg h]
  rfl

/-- C4, counterexample: the claim says the result never contains a
`'#'` marker, but only one leading `'#'` is stripped, so the input
`"##"` leaves a one-character payload `"#"` which is repeated six
times. -/
theorem claimC4_counterexample :
    expandColor "##" = "######" ∧ '#' ∈ (expandColor "##").data := by
  constructor
  · rfl
  · decide

/-- C4, amended: `expandColor` returns the empty string for empty
input; for a 1-character payload, that character repeated 6 times; for
a 2-character payload, it repeated 3 times; for a 3-character payload,
each character duplicated pairwise; for payloads of 4 or more
characters, the payload unchanged — where the payload is the input with
a SINGLE leading `'#'` removed and letters uppercased; and the result
contains no `'#'` marker provided the payload contains none (i.e. the
input has no `'#'` beyond the optional single leading marker). -/
theorem claimC4_amended (hex : String) :
    (hex = "" → expandColor hex = "") ∧
    (∀ c, payloadSpec hex = [c] → expandColor hex = ⟨[c, c, c, c, c, c]⟩) ∧
    (∀ c d, payloadSpec hex = [c, d] → expandColor hex = ⟨[c, d, c, d, c, d]⟩) ∧
    (∀ c d e, payloadSpec hex = [c, d, e] → expandColor hex = ⟨[c, c, d, d, e, e]⟩) ∧
    (hex ≠ "" → 4 ≤ (payloadSpec hex).length → expandColor hex = ⟨payloadSpec hex⟩) ∧
    ('#' ∉ payloadSpec hex → '#' ∉ (expandColor hex).data) := by
  by_cases h : hex = ""
  · subst h
    refine ⟨fun _ => rfl, ?_, ?_, ?_, ?_, ?_⟩
    · intro c hc; simp [payloadSpec, jsStripHashL] at hc
    · intro c d hc; simp [payloadSpec, jsStripHashL] at hc
    · intro c d e hc; simp [payloadSpec, jsStripHashL] at hc
    · intro h _; exact absurd rfl h
    · intro _ hmem; simp [expandColor] at hmem
  · rw [expandColor_eq_branches hex h]
    refine ⟨fun he => absurd he h, ?_, ?_, ?_, ?_, ?_⟩
    · intro c hc; rw [hc]; rfl
    · intro c d hc; rw [hc]; rfl
    · intro c d e hc; rw [hc]; rfl
    · intro _ hlen
      rw [if_neg, if_neg, if_neg] <;> omega
    · intro hnot
      split
      · intro hmem
        apply hnot
        simp only [String.data] at hmem
        have h6 : (List.replicate 6 (payloadSpec hex)).flatten =
            payloadSpec hex ++ payloadSpec hex ++ payloadSpec hex ++ payloadSpec hex ++
            payloadSpec hex ++ payloadSpec hex := by
          simp [List.replicate, List.flatten]
        rw [h6] at hmem
        simp only [List.mem_append] at hmem
        rcases hmem with ((((h1 | h1) | h1) | h1) | h1) | h1 <;> exact h1
      · split
        · intro hmem
          apply hnot
          simp only [String.data] at hmem
          have h3 : (List.replicate 3 (payloadSpec hex)).flatten =
              payloadSpec hex ++ payloadSpec hex ++ payloadSpec hex := by
            simp [List.replicate, List.flatten]
          rw [h3] at hmem
          simp only [List.mem_append] at hmem
          rcases hmem with (h1 | h1) | h1 <;> exact h1
        · split
          · intro hmem
            apply hnot
            simp only [String.data] at hmem
            rw [List.mem_flatMap] at hmem
            rcases hmem with ⟨c, hc, hmem⟩
            simp at hmem
            rwa [hmem]
          · exact fun hmem => hnot hmem

/-- C4, witness for the amended theorem at the concrete input `"#abc"`. -/
theorem claimC4_witness : expandColor "#abc" = "AABBCC" :=
  (claimC4_amended "#abc").2.2.2.1 'A' 'B' 'C' (by decide)

/-! ### C2: occurrence-filter validation -/

/-- First validation failure on a token list. -/
inductive OccErr where
  | invalid (tok : List Char) : OccErr
  | range (idx : Int) : OccErr
deriving DecidableEq

/-- Declarative left-to-right validation of the (trimmed, non-empty)
occurrence tokens against `n` matches: the first token with no integer
prefix is an invalid-token error, the first parsed index outside
`[1, n]` is an out-of-range error, and otherwise every token
contributes its 0-based index. -/
def validateTokens : List (List Char) → Nat → Except OccErr (List Nat)
  | [], _ => .ok []
  | t :: ts, n =>
    match parseIntJS t with
    | none => .error (.invalid t)
    | some idx =>
      if 1 ≤ idx ∧ idx ≤ (n : Int) then
        match validateTokens ts n with
        | .ok l => .ok ((idx - 1).toNat :: l)
        | .error e => .error e
      else .error (.range idx)

/-- The token list the source derives from a non-blank occurrences
string: split the trimmed string on commas, trim each token, drop the
empty ones. -/
def occTokens (occ : String) : List (List Char) :=
  ((splitComma (jsTrim occ.data)).map jsTrim).filter (fun t => t ≠ [])

theorem occLoop_eq_validate (toks : List (List Char)) (n : Nat) (acc : List Nat) :
    occLoop toks n acc =
      match validateTokens toks n with
      | .ok l => .paintSome (acc ++ l)
      | .error (.invalid t) => .invalidToken ⟨t⟩
      | .error (.range i) => .outOfRange i (rangeMsg n) := by
  induction toks generalizing acc with
  | nil => simp [occLoop, validateTokens]
  | cons t ts ih =>
    rw [occLoop, validateTokens]
    cases hp : parseIntJS t with
    | none => rfl
    | some idx =>
      dsimp only
      by_cases hc : idx < 1 ∨ (n : Int) ≤ idx - 1
      · rw [if_pos hc, if_neg (show ¬(1 ≤ idx ∧ idx ≤ (n : Int)) by omega)]
      · rw [if_neg hc, if_pos (show 1 ≤ idx ∧ idx ≤ (n : Int) by omega), ih]
        cases validateTokens ts n with
        | ok l => simp
        | error e => cases e <;> rfl

theorem validateTokens_ok_lt (toks : List (List Char)) (n : Nat) (l : List Nat)
    (h : validateTokens toks n = .ok l) : ∀ i ∈ l, i < n := by
  induction toks generalizing l with
  | nil =>
    rw [validateTokens] at h
    cases h
    intro i hi
    cases hi
  | cons t ts ih =>
    rw [validateTokens] at h
    cases hp : parseIntJS t with
    | none => rw [hp] at h; cases h
    | some idx =>
      rw [hp] at h
      dsimp only at h
      by_cases hc : 1 ≤ idx ∧ idx ≤ (n : Int)
      · rw [if_pos hc] at h
        cases hv : validateTokens ts n with
        | ok l2 =>
          rw [hv] at h
          cases h
          intro i hi
          rcases List.mem_cons.mp hi with h1 | h1
          · subst h1; omega
          · exact ih l2 hv i h1
        | error e => rw [hv] at h; cases h
      · rw [if_neg hc] at h; cases h

/-- C2, counterexample: for an entry with one match, the claim says the
occurrences string `"1.5"` must produce an invalid-occurrence error (it
does not parse as an integer) and paint nothing; the source's
`parseInt('1.5', 10)` yields `1`, which is in range, so the first match
is painted and no error is reported. -/
theorem claimC2_counterexample :
    processOccurrences (some "1.5") 1 = OccOutcome.paintSome [0] ∧
    (EntryResult.styled (processOccurrences (some "1.5") 1)).painted 1 = [0] := by
  constructor <;> decide

/-- C2, amended: for every style entry with `n ≥ 1` matches, a blank
occurrences string paints every match; a non-blank one is split on
commas, the tokens trimmed and blank tokens discarded, and the rest
validated left to right under JS `parseInt` semantics (a token with no
leading integer prefix fails; trailing characters after the integer
prefix are ignored): the first failing token gives the invalid-token
error and nothing is painted, the first parsed index outside `[1, n]`
gives the out-of-range error carrying the valid range `"1-n"` and
nothing is painted, and only when every token validates are exactly the
matches at the 0-based positions `index − 1` painted (all of them below
`n`). -/
theorem claimC2_amended (occ : String) (n : Nat) (hn : 1 ≤ n) :
    (jsTrim occ.data = [] →
      processOccurrences (some occ) n = OccOutcome.paintAll ∧
      (EntryResult.styled (processOccurrences (some occ) n)).painted n = List.range n) ∧
    (jsTrim occ.data ≠ [] →
      (∀ t, validateTokens (occTokens occ) n = .error (.invalid t) →
        processOccurrences (some occ) n = OccOutcome.invalidToken ⟨t⟩ ∧
        (EntryResult.styled (processOccurrences (some occ) n)).painted n = []) ∧
      (∀ i, validateTokens (occTokens occ) n = .error (.range i) →
        processOccurrences (some occ) n = OccOutcome.outOfRange i ("1-" ++ toString n) ∧
        (EntryResult.styled (processOccurrences (some occ) n)).painted n = []) ∧
      (∀ l, validateTokens (occTokens occ) n = .ok l →
        processOccurrences (some occ) n = OccOutcome.paintSome l ∧
        (EntryResult.styled (processOccurrences (some occ) n)).painted n = l ∧
        ∀ i ∈ l, i < n)) := by
  have hrange : rangeMsg n = "1-" ++ toString n := by
    rw [rangeMsg, if_pos (by omega)]
  constructor
  · intro hblank
    have h1 : processOccurrences (some occ) n = OccOutcome.paintAll := by
      rw [processOccurrences]
      simp only [Option.getD_some]
      rw [if_pos hblank]
    rw [h1]
    constructor <;> trivial
  · intro hne
    have hproc : processOccurrences (some occ) n = occLoop (occTokens occ) n [] := by
      rw [processOccurrences]
      simp only [Option.getD_some]
      rw [if_neg hne]
      rfl
    refine ⟨?_, ?_, ?_⟩
    · intro t hv
      rw [hproc, occLoop_eq_validate, hv]
      exact ⟨rfl, rfl⟩
    · intro i hv
      rw [hproc, occLoop_eq_validate, hv, hrange]
      exact ⟨rfl, rfl⟩
    · intro l hv
      rw [hproc, occLoop_eq_validate, hv]
      exact ⟨by simp, by simp [EntryResult.painted], validateTokens_ok_lt _ _ _ hv⟩

/-- C2, witness for the amended theorem: `"1"` on a single-match entry
paints exactly the first match. -/
theorem claimC2_witness :
    processOccurrences (some "1") 1 = OccOutcome.paintSome [0] :=
  (((claimC2_amended "1" 1 (by decide)).2 (by decide)).2.2 [0] (by rfl)).1

/-! ### C10: engine failure during a styling pass -/

/-- C10: when MathJax (or its `tex2svg`) is missing, or the `tex2svg`
call throws, `getMatchesByTex` returns `null` instead of raising, and
the styling applier treats that `null` exactly like a genuine zero-match
result: the same expression-not-found result is reported against the
entry and nothing is painted. -/
theorem claimC10_engine_failure_not_found (tex : String) (svgElement : Elem)
    (occ : Option String) :
    getMatchesByTex none tex svgElement = none ∧
    (∀ (tex2svg : String → Except String Elem) (err : String),
      tex2svg tex = .error err → getMatchesByTex (some tex2svg) tex svgElement = none) ∧
    processEntry none occ = EntryResult.notFound ∧
    processEntry (some []) occ = EntryResult.notFound ∧
    (∀ n, (processEntry none occ).painted n = []) ∧
    (∀ n, (processEntry (some []) occ).painted n = []) := by
  refine ⟨rfl, ?_, rfl, rfl, fun _ => rfl, fun _ => rfl⟩
  intro tex2svg err herr
  rw [getMatchesByTex, herr]

/-- C10, witness: a throwing engine at a concrete input. -/
theorem claimC10_witness :
    getMatchesByTex (some fun _ => Except.error "TeX parse error") "\\zzz"
      (Elem.node "svg" none none []) = none :=
  (claimC10_engine_failure_not_found "\\zzz" (Elem.node "svg" none none []) none).2.1
    (fun _ => Except.error "TeX parse error") "TeX parse error" rfl

/-! ### C5: the node-equality test -/

mutual

/-- The claim's reading of node equality, written from the spec's words:
same tag, same semantic node type, same literal-character attribute
whenever EITHER of the two nodes carries one, and recursively identical
children (same count and order). -/
def specNodeEq : Elem → Elem → Bool
  | .node t1 m1 c1 ch1, .node t2 m2 c2 ch2 =>
    t1 == t2 && m1 == m2 && (!(c1.isSome || c2.isSome) || c1 == c2) &&
      specListEq ch1 ch2

def specListEq : List Elem → List Elem → Bool
  | [], [] => true
  | x :: xs, y :: ys => specNodeEq x y && specListEq xs ys
  | _, _ => false

end

def c5A : Elem := .node "g" (some "mi") none []

def c5B : Elem := .node "g" (some "mi") (some "1D465") []

/-- C5, counterexample: the source's `nodeMatches` consults the
literal-character attribute only when the FIRST (main-tree) node
carries it.  With a main node lacking `data-c` and a reference node
carrying one, `nodeMatches` succeeds while the claim's either-side test
fails. -/
theorem claimC5_counterexample :
    nodeMatches c5A c5B = true ∧ specNodeEq c5A c5B = false ∧
    c5A.dataC = none ∧ c5B.dataC = some "1D465" := by
  refine ⟨by decide, by decide, rfl, rfl⟩

theorem listMatches_iff (l1 l2 : List Elem) :
    listMatches l1 l2 = true ↔
      l1.length = l2.length ∧ ∀ p ∈ l1.zip l2, nodeMatches p.1 p.2 = true := by
  induction l1 generalizing l2 with
  | nil =>
    cases l2 with
    | nil => simp [listMatches]
    | cons y ys => simp [listMatches]
  | cons x xs ih =>
    cases l2 with
    | nil => simp [listMatches]
    | cons y ys =>
      rw [listMatches, Bool.and_eq_true, ih ys]
      constructor
      · rintro ⟨h1, h2, h3⟩
        refine ⟨by simp [h2], ?_⟩
        intro p hp
        rcases List.mem_cons.mp hp with h | h
        · subst h; exact h1
        · exact h3 p h
      · rintro ⟨h1, h2⟩
        exact ⟨h2 (x, y) (List.mem_cons_self _ _), by simpa using h1,
          fun p hp => h2 p (List.mem_cons_of_mem _ hp)⟩

/-- C5, amended: the deep-match node-equality test holds if and only if
the two nodes have the same tag, the same semantic-node-type attribute,
the same literal-character attribute whenever the FIRST (main-tree)
node carries one, and the same number of children with each child pair
recursively equal in order. -/
theorem claimC5_amended (a b : Elem) :
    nodeMatches a b = true ↔
      (a.tag = b.tag ∧ a.mml = b.mml ∧
       (a.dataC.isSome → a.dataC = b.dataC) ∧
       a.children.length = b.children.length ∧
       ∀ p ∈ a.children.zip b.children, nodeMatches p.1 p.2 = true) := by
  cases a with
  | node t1 m1 c1 ch1 =>
    cases b with
    | node t2 m2 c2 ch2 =>
      rw [nodeMatches]
      cases c1 with
      | none =>
        simp only [Option.isSome_none, Bool.not_false, Bool.true_or, Bool.and_true,
          Bool.and_eq_true, beq_iff_eq, Elem.tag, Elem.mml, Elem.dataC,
          Elem.children, listMatches_iff]
        constructor
        · rintro ⟨⟨h1, h2⟩, h4, h5⟩
          exact ⟨h1, h2, by simp, h4, h5⟩
        · rintro ⟨h1, h2, _, h4, h5⟩
          exact ⟨⟨h1, h2⟩, h4, h5⟩
      | some v =>
        simp only [Option.isSome_some, Bool.not_true, Bool.false_or, Bool.and_eq_true,
          beq_iff_eq, Elem.tag, Elem.mml, Elem.dataC, Elem.children, listMatches_iff]
        constructor
        · rintro ⟨⟨⟨h1, h2⟩, h3⟩, h4, h5⟩
          exact ⟨h1, h2, fun _ => h3, h4, h5⟩
        · rintro ⟨h1, h2, h3, h4, h5⟩
          exact ⟨⟨⟨h1, h2⟩, h3 trivial⟩, h4, h5⟩

/-- C5, witness for the amended characterization at concrete nodes. -/
theorem claimC5_witness :
    nodeMatches (Elem.node "g" (some "mo") (some "2B") [])
      (Elem.node "g" (some "mo") (some "2B") []) = true :=
  (claimC5_amended _ _).mpr ⟨rfl, rfl, fun _ => rfl, rfl, by decide⟩

/-! ### C7: non-emptiness of matches -/

theorem seqWalk_length (sibs rs : List Elem) :
    (seqWalk sibs rs).1.length = (seqWalk sibs rs).2 := by
  induction sibs generalizing rs with
  | nil => cases rs <;> simp [seqWalk]
  | cons s ss ih =>
    cases rs with
    | nil => simp [seqWalk]
    | cons r rs2 =>
      rw [seqWalk]
      by_cases h : nodeMatches s r = true
      · simp only [if_pos h, List.length_cons]
        rw [ih]
      · simp [h]

theorem startsAt_mem_ne (sibs : List Elem) (ref : Elem)
    (href : ref.children ≠ []) : ∀ m ∈ startsAt sibs ref, m ≠ [] := by
  induction sibs with
  | nil => intro m hm; simp [startsAt] at hm
  | cons c rest ih =>
    intro m hm
    rw [startsAt] at hm
    simp only [List.mem_append] at hm
    rcases hm with (h | h) | h
    · by_cases hd : nodeMatches c ref = true
      · rw [if_pos hd] at h
        rcases List.mem_singleton.mp h with rfl
        simp
      · rw [if_neg hd] at h
        cases h
    · by_cases hs : (seqWalk (c :: rest) ref.children).2 = ref.children.length
      · rw [if_pos hs] at h
        rcases List.mem_singleton.mp h with rfl
        intro hnil
        have hlen := seqWalk_length (c :: rest) ref.children
        rw [hnil] at hlen
        simp only [List.length_nil] at hlen
        rw [hs] at hlen  -- hlen : 0 = ref.children.length
        exact href (List.length_eq_zero.mp hlen.symm)
      · rw [if_neg hs] at h
        cases h
    · exact ih m h

mutual

theorem traverse_mem_ne (e ref : Elem) (href : ref.children ≠ []) :
    ∀ m ∈ traverse e ref, m ≠ [] := by
  cases e with
  | node t mm dc ch =>
    intro m hm
    rw [traverse] at hm
    rcases List.mem_append.mp hm with h | h
    · exact startsAt_mem_ne ch ref href m h
    · exact traverseList_mem_ne ch ref href m h

theorem traverseList_mem_ne (l : List Elem) (ref : Elem) (href : ref.children ≠ []) :
    ∀ m ∈ traverseList l ref, m ≠ [] := by
  cases l with
  | nil => intro m hm; rw [traverseList] at hm; cases hm
  | cons c cs =>
    intro m hm
    rw [traverseList] at hm
    rcases List.mem_append.mp hm with h | h
    · exact traverse_mem_ne c ref href m h
    · exact traverseList_mem_ne cs ref href m h

end

def c7Ref : Elem := .node "math" (some "math") none []

def c7Main : Elem := .node "svg" none none [.node "x" none none []]

/-- C7, counterexample: the matcher runs unchanged (and returns
normally) on a one-node reference tree with no children; for such a
reference the sequential walk consumes zero reference children at every
start node and `lastMatch === subtree.lastChild` holds as `null ===
null`, so an EMPTY match is pushed for every node of the main tree. -/
theorem claimC7_counterexample :
    findSubtreeMatches c7Main c7Ref = [[]] ∧
    [] ∈ findSubtreeMatches c7Main c7Ref := by
  constructor <;> decide

/-- C7, amended: every Match returned by `findSubtreeMatches` is a
non-empty list of siblings provided the reference tree has at least one
top-level child; a childless reference root instead yields an empty
match at every node of the main tree. -/
theorem claimC7_amended (main ref : Elem) (href : ref.children ≠ []) :
    ∀ m ∈ findSubtreeMatches main ref, m ≠ [] := by
  rw [findSubtreeMatches]
  exact traverse_mem_ne main ref href

/-! ### C1: completeness for contiguous sibling runs -/

def aEx : Elem := .node "g" (some "mi") (some "61") []

def plusEx : Elem := .node "g" (some "mo") (some "2B") []

def bEx : Elem := .node "g" (some "mi") (some "62") []

def mainEx : Elem := .node "g" (some "math") none [aEx, plusEx, bEx]

def refEx : Elem := .node "mjx-c" (some "math") none [aEx, plusEx, bEx]

/-- C7, witness for the amended theorem: the one sequential-run match
of `a+b` inside the rendered `a+b` tree is non-empty. -/
theorem claimC7_witness : ([aEx, plusEx, bEx] : List Elem) ≠ [] :=
  claimC7_amended mainEx refEx (by decide) [aEx, plusEx, bEx] (by decide)

theorem seqWalk_of_listMatches (rs : List Elem) :
    ∀ (run post : List Elem), listMatches run rs = true →
      seqWalk (run ++ post) rs = (run, rs.length) := by
  induction rs with
  | nil =>
    intro run post h
    cases run with
    | nil =>
      simp only [List.nil_append, List.length_nil]
      cases post <;> simp [seqWalk]
    | cons x xs => simp [listMatches] at h
  | cons r rs2 ih =>
    intro run post h
    cases run with
    | nil => simp [listMatches] at h
    | cons x xs =>
      rw [listMatches, Bool.and_eq_true] at h
      obtain ⟨h1, h2⟩ := h
      rw [List.cons_append, seqWalk, if_pos h1, ih xs post h2]
      simp

theorem startsAt_complete (ref : Elem) (run : List Elem) (hrun : run ≠ [])
    (hmatch : listMatches run ref.children = true) :
    ∀ (pre post : List Elem), run ∈ startsAt (pre ++ (run ++ post)) ref := by
  intro pre
  induction pre with
  | nil =>
    intro post
    cases run with
    | nil => exact absurd rfl hrun
    | cons c rest2 =>
      rw [List.nil_append, List.cons_append, startsAt]
      simp only [List.mem_append]
      refine Or.inl (Or.inr ?_)
      have hw : seqWalk (c :: (rest2 ++ post)) ref.children =
          (c :: rest2, ref.children.length) := by
        rw [← List.cons_append]
        exact seqWalk_of_listMatches ref.children (c :: rest2) post hmatch
      rw [hw]
      simp
  | cons x pre2 ih =>
    intro post
    rw [List.cons_append, startsAt]
    simp only [List.mem_append]
    exact Or.inr (ih post)

mutual

theorem traverse_complete (e ref p : Elem) (hp : p ∈ allNodes e)
    (m : List Elem) (hm : m ∈ startsAt p.children ref) : m ∈ traverse e ref := by
  cases e with
  | node t mm dc ch =>
    rw [allNodes] at hp
    rcases List.mem_cons.mp hp with h | h
    · subst h
      rw [traverse]
      exact List.mem_append_left _ hm
    · rw [traverse]
      exact List.mem_append_right _ (traverseList_complete ch ref p h m hm)

theorem traverseList_complete (l : List Elem) (ref p : Elem)
    (hp : p ∈ allNodesList l) (m : List Elem) (hm : m ∈ startsAt p.children ref) :
    m ∈ traverseList l ref := by
  cases l with
  | nil => rw [allNodesList] at hp; cases hp
  | cons c cs =>
    rw [allNodesList] at hp
    rcases List.mem_append.mp hp with h | h
    · rw [traverseList]
      exact List.mem_append_left _ (traverse_complete c ref p h m hm)
    · rw [traverseList]
      exact List.mem_append_right _ (traverseList_complete cs ref p h m hm)

end

/-- C1: for every main tree and every reference tree with at least one
top-level child, if the reference's top-level children appear as an
exact contiguous run of siblings anywhere in the main tree — each
sibling pairwise satisfying the node-equality test with the
corresponding reference child, in order — then `findSubtreeMatches`
returns (at least) a Match consisting of exactly those siblings. -/
theorem claimC1_run_completeness (main ref p : Elem) (pre run post : List Elem)
    (href : ref.children ≠ []) (hp : p ∈ allNodes main)
    (hch : p.children = pre ++ run ++ post)
    (hmatch : listMatches run ref.children = true) :
    run ∈ findSubtreeMatches main ref := by
  have hlen := ((listMatches_iff run ref.children).mp hmatch).1
  have hrun : run ≠ [] := by
    intro h
    subst h
    simp only [List.length_nil] at hlen
    exact href (List.length_eq_zero.mp hlen.symm)
  rw [List.append_assoc] at hch
  rw [findSubtreeMatches]
  refine traverse_complete main ref p hp run ?_
  rw [hch]
  exact startsAt_complete ref run hrun hmatch pre post

/-- C1, witness: the three siblings of `a+b` match the three top-level
children of the independently rendered reference and are found as one
sequential-run Match. -/
theorem claimC1_witness : [aEx, plusEx, bEx] ∈ findSubtreeMatches mainEx refEx :=
  claimC1_run_completeness mainEx refEx mainEx [] [aEx, plusEx, bEx] []
    (by decide) (by decide) (by decide) (by decide)

/-! ### C6: painting a matched node -/

theorem paintDescendantsList_eq_map (color : String) (l : List PElem) :
    paintDescendantsList color l = l.map (paintDescendants color) := by
  induction l with
  | nil => rfl
  | cons c cs ih => rw [paintDescendantsList, ih, List.map_cons]

theorem paintDescendants_parts (color : String) (e : PElem) :
    (paintDescendants color e).tag = e.tag ∧
    (paintDescendants color e).mml = e.mml ∧
    (paintDescendants color e).fill =
      (if e.tag = "g" ∧ e.mml ≠ some "merror" then some color else e.fill) := by
  cases e with
  | node t m f ch => exact ⟨rfl, rfl, rfl⟩

theorem nodeAt_paintDescendants (color : String) (e : PElem) (path : List Nat) :
    nodeAt (paintDescendants color e) path =
      (nodeAt e path).map (paintDescendants color) := by
  induction path generalizing e with
  | nil => rfl
  | cons i p ih =>
    cases e with
    | node t m f ch =>
      rw [paintDescendants, nodeAt, nodeAt]
      simp only [PElem.children, paintDescendantsList_eq_map, List.get?_map]
      cases ch.get? i with
      | none => rfl
      | some c => simp [ih]

def c6Err : PElem := .node "g" (some "merror") (some "red") []

/-- C6, counterexample: `applyColorToNodeAndNestedGroups` sets
`style.fill = color` on the matched node itself with no error-node
check (mathRenderer.ts lines 240-242); the `merror` exclusion only
guards the nested-group loop.  A matched node that is itself tagged
`merror` therefore gets the requested color, although the claim says an
error node's fill is never set to it. -/
theorem claimC6_counterexample :
    c6Err.mml = some "merror" ∧
    (applyColorToNodeAndNestedGroups c6Err "#FF0000").fill = some "#FF0000" :=
  ⟨rfl, rfl⟩

/-- C6, amended: painting a style's color onto a matched node sets the
fill of the matched node itself UNCONDITIONALLY (even when that node is
tagged as an error/placeholder node), and of every nested group (`g`)
node beneath it except those tagged `merror`, which keep their previous
fill; every other descendant also keeps its fill, and tags and
semantic-type attributes are preserved everywhere. -/
theorem claimC6_amended (e : PElem) (color : String) :
    (applyColorToNodeAndNestedGroups e color).fill = some color ∧
    (applyColorToNodeAndNestedGroups e color).tag = e.tag ∧
    (applyColorToNodeAndNestedGroups e color).mml = e.mml ∧
    ∀ (i : Nat) (p : List Nat) (d : PElem), nodeAt e (i :: p) = some d →
      ∃ d2, nodeAt (applyColorToNodeAndNestedGroups e color) (i :: p) = some d2 ∧
        d2.tag = d.tag ∧ d2.mml = d.mml ∧
        d2.fill = (if d.tag = "g" ∧ d.mml ≠ some "merror" then some color else d.fill) := by
  cases e with
  | node t m f ch =>
    refine ⟨rfl, rfl, rfl, ?_⟩
    intro i p d hd
    rw [nodeAt] at hd
    simp only [PElem.children] at hd
    rw [applyColorToNodeAndNestedGroups, nodeAt]
    simp only [PElem.children, paintDescendantsList_eq_map, List.get?_map]
    cases hc : ch.get? i with
    | none => rw [hc] at hd; cases hd
    | some c =>
      rw [hc] at hd
      dsimp only at hd
      simp only [Option.map_some']
      rw [nodeAt_paintDescendants, hd]
      exact ⟨paintDescendants color d, rfl,
        (paintDescendants_parts color d).1,
        (paintDescendants_parts color d).2.1,
        (paintDescendants_parts color d).2.2⟩

def c6Tree : PElem :=
  .node "g" (some "mrow") none [.node "g" (some "mi") none [], c6Err]

/-- C6, witness for the amended theorem: the nested `merror` child of a
painted node keeps its fixed error fill. -/
theorem claimC6_witness :
    ∃ d2, nodeAt (applyColorToNodeAndNestedGroups c6Tree "#FF0000") [1] = some d2 ∧
      d2.tag = c6Err.tag ∧ d2.mml = c6Err.mml ∧
      d2.fill = (if c6Err.tag = "g" ∧ c6Err.mml ≠ some "merror"
        then some "#FF0000" else c6Err.fill) :=
  (claimC6_amended c6Tree "#FF0000").2.2.2 1 [] c6Err rfl

/-! ### C3: the render dispatcher decision -/

theorem needsFullRender_true_iff (s : SessionState) :
    needsFullRender s = true ↔
      (s.lastRenderedTex ≠ some s.renderOptions.tex ∨
       s.lastRenderedDisplay ≠ some s.renderOptions.display ∨
       s.currentSVGWrapper = none) := by
  rw [needsFullRender]
  simp only [Bool.or_eq_true, bne_iff_ne, Option.isNone_iff_eq_none]
  tauto

/-- C3: `convert` takes the full-render path — invoking the external
typeset engine with the current text and display flag — exactly when
the current text differs from `lastRenderedTex`, or the display mode
differs from `lastRenderedDisplay`, or no current visual tree exists;
otherwise it takes the styling-only path, which never calls the
engine.  In particular, from a state whose text and display mode match
the last render and whose tree exists, changing only the font color
still takes the styling-only path. -/
theorem claimC3_dispatcher (s : SessionState) :
    (convert s = DispatchAction.typeset s.renderOptions.tex s.renderOptions.display ↔
      (s.lastRenderedTex ≠ some s.renderOptions.tex ∨
       s.lastRenderedDisplay ≠ some s.renderOptions.display ∨
       s.currentSVGWrapper = none)) ∧
    (convert s = DispatchAction.restyleOnly ↔
      (s.lastRenderedTex = some s.renderOptions.tex ∧
       s.lastRenderedDisplay = some s.renderOptions.display ∧
       s.currentSVGWrapper ≠ none)) ∧
    (∀ c : String,
      s.lastRenderedTex = some s.renderOptions.tex →
      s.lastRenderedDisplay = some s.renderOptions.display →
      s.currentSVGWrapper ≠ none →
      convert { s with renderOptions := { s.renderOptions with fontColor := c } } =
        DispatchAction.restyleOnly) := by
  have hneg : needsFullRender s = false ↔
      (s.lastRenderedTex = some s.renderOptions.tex ∧
       s.lastRenderedDisplay = some s.renderOptions.display ∧
       s.currentSVGWrapper ≠ none) := by
    rw [← Bool.not_eq_true, needsFullRender_true_iff]
    tauto
  refine ⟨?_, ?_, ?_⟩
  · constructor
    · intro hc
      by_cases h : needsFullRender s = true
      · exact (needsFullRender_true_iff s).mp h
      · rw [convert, if_neg h] at hc
        cases hc
    · intro hprop
      rw [convert, if_pos ((needsFullRender_true_iff s).mpr hprop)]
  · constructor
    · intro hc
      by_cases h : needsFullRender s = true
      · rw [convert, if_pos h] at hc
        cases hc
      · exact hneg.mp (Bool.not_eq_true _ ▸ h)
    · intro hprop
      have h : needsFullRender s = false := hneg.mpr hprop
      rw [convert, if_neg (by simp [h])]
  · intro c h1 h2 h3
    have h3f : s.currentSVGWrapper.isNone = false := by
      cases hw : s.currentSVGWrapper with
      | none => exact absurd hw h3
      | some w => rfl
    have h : needsFullRender
        { s with renderOptions := { s.renderOptions with fontColor := c } } = false := by
      rw [needsFullRender]
      simp [h1, h2, h3f]
    rw [convert, if_neg (by simp [h])]

def c3State : SessionState :=
  { initState with
      renderOptions := { initState.renderOptions with tex := "x^2" }
      lastRenderedTex := some "x^2"
      lastRenderedDisplay := some true
      currentSVGWrapper := some (PElem.node "svg" none none []) }

/-- C3, witness: with text and display unchanged and a tree present, a
font-color-only change dispatches the styling-only path. -/
theorem claimC3_witness :
    convert { c3State with
      renderOptions := { c3State.renderOptions with fontColor := "#FF0000" } } =
      DispatchAction.restyleOnly :=
  (claimC3_dispatcher c3State).2.2 "#FF0000" rfl rfl (by simp [c3State])

/-! ### C8: failure of the typeset engine during a full render -/

/-- C8: whenever the engine is unavailable or its typeset call rejects
during a full render, `renderMath` appends the error text as inline
output content and resets `currentSVGWrapper`, `lastRenderedTex` and
`lastRenderedDisplay` to null, after which `needsFullRender` is true
for EVERY choice of render options — so the next edit necessarily
takes the full-render path. -/
theorem claimC8_failure_reset (eng : EngineAvail) (s : SessionState) (msg : String)
    (h : typesetMathResult eng s.renderOptions.tex s.renderOptions.display =
      .error msg) :
    (renderMathStep eng s).2 = OutputContent.errorText msg ∧
    (renderMathStep eng s).1.currentSVGWrapper = none ∧
    (renderMathStep eng s).1.lastRenderedTex = none ∧
    (renderMathStep eng s).1.lastRenderedDisplay = none ∧
    ∀ opts : RenderOptions,
      needsFullRender { (renderMathStep eng s).1 with renderOptions := opts } = true := by
  have hs : renderMathStep eng s =
      ({ s with currentSVGWrapper := none, lastRenderedTex := none,
                lastRenderedDisplay := none }, .errorText msg) := by
    rw [renderMathStep, h]
  rw [hs]
  exact ⟨rfl, rfl, rfl, rfl, fun opts => rfl⟩

/-- C8, witness: the unavailable engine at the initial state. -/
theorem claimC8_witness :
    (renderMathStep EngineAvail.unavailable initState).1.lastRenderedTex = none :=
  (claimC8_failure_reset EngineAvail.unavailable initState
    "MathJax is not loaded. Please wait a moment and try again." rfl).2.2.1

/-! ### C9: the create/edit invariant -/

/-- C9, counterexample: the place commit (part_001 lines 204-211) sets
`mode: 'edit'` together with `currentNodeId: null` — the tracked id is
explicitly left null until the host creates and selects the node — so
the reachable state right after placing violates "mode == edit implies
the tracked artifact id is set". -/
theorem claimC9_counterexample :
    Reachable (step initState Transition.place) ∧
    (step initState Transition.place).mode = Mode.edit ∧
    (step initState Transition.place).currentNodeId = none :=
  ⟨Reachable.next Reachable.init Transition.place, rfl, rfl⟩

/-- C9, amended: in every reachable session state, `mode == create`
implies the tracked artifact id is null; the selection transitions each
establish the claimed invariant (`switchToEditMode` sets the id it is
given, `switchToCreateMode` clears mode and id together); but the
place commit leaves `mode == edit` with the id null, pending assignment
by the host, so the edit-implies-id-set half holds after every
transition EXCEPT the place commit. -/
theorem claimC9_amended :
    (∀ s, Reachable s → s.mode = Mode.create → s.currentNodeId = none) ∧
    (∀ (s : SessionState) (id : String) (opts : RenderOptions),
      (step s (Transition.loadNode id opts)).mode = Mode.edit ∧
      (step s (Transition.loadNode id opts)).currentNodeId = some id) ∧
    (∀ s : SessionState,
      (step s Transition.clearSelection).mode = Mode.create ∧
      (step s Transition.clearSelection).currentNodeId = none) ∧
    (∀ s : SessionState,
      (step s Transition.place).mode = Mode.edit ∧
      (step s Transition.place).currentNodeId = none) := by
  refine ⟨?_, fun s id opts => ⟨rfl, rfl⟩, fun s => ?_, fun s => ⟨rfl, rfl⟩⟩
  · intro s hs
    induction hs with
    | init => intro _; rfl
    | next h t ih =>
      cases t with
      | place => intro hm; exact Mode.noConfusion hm
      | clearSelection =>
        intro _
        rw [step]
        cases hd : SessionState.draftState _ <;> rfl
      | loadNode id opts => intro hm; exact Mode.noConfusion hm
      | editOptions opts => intro hm; exact ih hm
      | renderSuccess tree => intro hm; exact ih hm
      | renderFailure => intro hm; exact ih hm
      | finishLoad => intro hm; exact ih hm
  · constructor
    · rw [step]
      cases hd : SessionState.draftState _ <;> rfl
    · rw [step]
      cases hd : SessionState.draftState _ <;> rfl

/-- C9, witness for the reachable-state half of the amended theorem. -/
theorem claimC9_witness : initState.currentNodeId = none :=
  claimC9_amended.1 initState Reachable.init rfl

end FigmaTex
